import Mathlib

set_option maxHeartbeats 1000000

/-
Shallow embedding of the submission evaluation and upload pipeline of
src/app.ts (a Deno grading script).  The evaluation engine spawns one child
process per rubric criterion, feeds it the criterion's long description on
stdin, concurrently drains stdout and stderr, maps the exit status to a
points value and stores the decoded stdout text (with leading spaces
replaced) as the comments of the criterion result.  The orchestrator
iterates submissions, creates one temporary working directory per
submission, downloads attachments into it and always removes the directory
in a finally block.  The upload pipeline re-filters the assessment records
by the user allow/deny lists and posts each record (or, in dry-run mode,
prints the total points instead of calling the network).
-/

namespace CanvasEval

/-- A rubric criterion (entries of rubric.criteria in the GraphQL data used
by evaluate, src/app.ts lines 70-81 and 404-425).  points is the criterion's
maximum point value. -/
structure Criterion where
  id : String
  description : String
  longDescription : String
  points : ℚ

/-- One event observed by the per-criterion reader loops: a decoded chunk
arriving on the child process stdout or stderr (src/app.ts lines 454-481).
The list order of events models the temporal interleaving of the two
concurrent reader loops at chunk granularity. -/
inductive StreamEv where
  | out (chunk : String)
  | err (chunk : String)

/-- Behaviour of one child process run (Deno.run, src/app.ts lines 412-431):
the chunk arrival sequence on its two output streams, its exit code, and
whether writing its stdin fails (the broken-pipe case of line 489). -/
structure ChildRun where
  chunks : List StreamEv
  exitCode : Nat
  stdinWriteFails : Bool

/-- status.success of the awaited process status (src/app.ts line 506):
true exactly for exit code zero. -/
def statusSuccess (run : ChildRun) : Bool := run.exitCode == 0

/-- One step of the stdout reader loop acting on the `output` accumulator:
`output += decode(chunk)` for a stdout chunk; the stderr loop never touches
`output` (src/app.ts lines 454-481, the stderr loop only calls write). -/
def captureStep (acc : String) (e : StreamEv) : String :=
  match e with
  | StreamEv.out chunk => acc ++ chunk
  | StreamEv.err _ => acc

/-- The final value of the `output` accumulator after both reader loops have
reached end of stream (src/app.ts line 433 and 461). -/
def capturedOutput (evs : List StreamEv) : String := evs.foldl captureStep ("")

/-- The stdout chunks of an event interleaving, in emission order. -/
def outChunks (evs : List StreamEv) : List String :=
  evs.filterMap (fun e =>
    match e with
    | StreamEv.out chunk => some chunk
    | StreamEv.err _ => none)

/-- The substitute character U+2008 (punctuation space) used for leading
spaces of comment lines (src/app.ts line 515). -/
def thinSpace : Char := Char.ofNat 0x2008

/-- JavaScript line terminators after which a multiline regex anchor matches
a new line start: LF, CR, U+2028, U+2029 (relevant to the /^ +/mg regex of
src/app.ts line 515). -/
def isLineTerm (ch : Char) : Bool :=
  ch == '\n' || ch == '\r' || ch == Char.ofNat 0x2028 || ch == Char.ofNat 0x2029

/-- Left-to-right scan semantics of output.replace(/^ +/mg, s =>
thinSpace.repeat(s.length)) (src/app.ts lines 514-515): while at a line
start, each space of the maximal leading run is replaced by the substitute
character; all other characters are copied and a line terminator re-arms
the line start. -/
def normGo : Bool → List Char → List Char
  | _, [] => []
  | atStart, ch :: cs =>
    if atStart && (ch == ' ') then thinSpace :: normGo true cs
    else ch :: normGo (isLineTerm ch) cs

/-- The comments normalization applied to the captured stdout text
(src/app.ts lines 514-515). -/
def normalizeComments (s : String) : String := String.mk (normGo true s.data)

/-- Modelled from the spec: one line with its maximal leading run of spaces
replaced by an equal-length run of the substitute character, the rest of
the line untouched. -/
def fixLine (l : List Char) : List Char :=
  (l.takeWhile (fun ch => ch == ' ')).map (fun _ => thinSpace)
    ++ l.dropWhile (fun ch => ch == ' ')

/-- Modelled from the spec: split a text into its lines, each line keeping
its trailing line terminator. -/
def splitLines : List Char → List (List Char)
  | [] => []
  | ch :: cs =>
    if isLineTerm ch then [ch] :: splitLines cs
    else
      match splitLines cs with
      | [] => [[ch]]
      | l :: ls => (ch :: l) :: ls

/-- Modelled from the spec: replace the maximal leading run of spaces of
every line by an equal-length run of the substitute character and leave
everything else unchanged. -/
def specNormalize (s : List Char) : List Char := ((splitLines s).map fixLine).flatten

/-- Helper for relating the scan to the per-line description: the text with
its first line kept verbatim and all later lines fixed. -/
def specNormMid : List Char → List Char
  | [] => []
  | ch :: cs => ch :: (if isLineTerm ch then specNormalize cs else specNormMid cs)

/-- Helper: the same value as specNormMid, written through splitLines. -/
def specTail (s : List Char) : List Char :=
  match splitLines s with
  | [] => []
  | l :: ls => l ++ (ls.map fixLine).flatten

/-- The literal pattern of the stdin regex replace: the characters of
"<br/>" followed by CRLF (src/app.ts line 485). -/
def brPat : List Char := ['<', 'b', 'r', '/', '>', '\r', '\n']

/-- Semantics of longDescription.replace(/<br\/>\r\n/g, newline)
(src/app.ts lines 484-485): leftmost, non-overlapping, single pass. -/
def replaceBrL : List Char → List Char
  | [] => []
  | ch :: cs =>
    if (ch :: cs).take 7 = brPat then '\n' :: replaceBrL (cs.drop 6)
    else ch :: replaceBrL cs
termination_by s => s.length
decreasing_by
  all_goals (simp only [List.length_drop, List.length_cons]; omega)

/-- Whether the pattern occurs anywhere in the text. -/
def hasBr : List Char → Bool
  | [] => false
  | ch :: cs => if (ch :: cs).take 7 = brPat then true else hasBr cs

/-- Modelled from the spec: split the text at every (leftmost,
non-overlapping) occurrence of the pattern. -/
def brSplit : List Char → List (List Char)
  | [] => [[]]
  | ch :: cs =>
    if (ch :: cs).take 7 = brPat then [] :: brSplit (cs.drop 6)
    else
      match brSplit cs with
      | [] => [[ch]]
      | l :: ls => (ch :: l) :: ls
termination_by s => s.length
decreasing_by
  all_goals (simp only [List.length_drop, List.length_cons]; omega)

/-- Modelled from the spec: join pieces with a separator between them. -/
def joinWith (sep : List Char) : List (List Char) → List Char
  | [] => []
  | [l] => l
  | l :: l2 :: ls => l ++ sep ++ joinWith sep (l2 :: ls)

/-- The text delivered to the child's stdin (src/app.ts lines 484-485). -/
def stdinText (s : String) : String := String.mk (replaceBrL s.data)

/-- Events on the child's stdin stream. -/
inductive StdinEv where
  | wrote (text : String)
  | closed

/-- The stdin interaction of one criterion run: the normalized long
description is written in full, then the stream is closed (src/app.ts
lines 483-488). -/
def stdinEvents (c : Criterion) : List StdinEv :=
  [StdinEv.wrote (stdinText c.longDescription), StdinEv.closed]

/-- The raw stdin write of one criterion run, which may fail with a broken
pipe when the child exits before reading (src/app.ts lines 487-489). -/
def stdinAttempt (run : ChildRun) : Except String Unit :=
  if run.stdinWriteFails then Except.error ("broken pipe") else Except.ok ()

/-- The catch handler attached to stdinPromise (src/app.ts lines 489-497):
a failed write is caught locally and only logged as a warning; the promise
then resolves normally. -/
def stdinHandled (run : ChildRun) : List String :=
  match stdinAttempt run with
  | Except.ok _ => []
  | Except.error _ => ["Failed writing process input"]

/-- The per-criterion result object stored under the criterion_<id> key
(src/app.ts lines 512-517). -/
structure CriteriaOutputData where
  points : ℚ
  comments : String

/-- Result of evaluating one criterion, together with harness warnings. -/
structure CriterionOutcome where
  result : CriteriaOutputData
  warnings : List String

/-- Evaluation of one (submission, criterion) pair (src/app.ts lines
404-517): points is the criterion's point value for a zero exit status and
0 otherwise; comments is the captured stdout text after the leading-space
normalization; a failed stdin write only produces a warning. -/
def evalCriterion (c : Criterion) (run : ChildRun) : CriterionOutcome :=
  { result :=
      { points := if statusSuccess run then c.points else 0
      , comments := normalizeComments (capturedOutput run.chunks) }
  , warnings := stdinHandled run }

/-- Outcome of one attachment download attempt (the fetch of src/app.ts
lines 387-393). -/
inductive DownloadResult where
  | ok
  | badStatus (code : Nat)
  | noBody

/-- One attachment of a submission (display_name and url of the REST data,
src/app.ts lines 378-385). -/
structure Attachment where
  displayName : String
  download : DownloadResult

/-- A submission node of the GraphQL data (src/app.ts lines 84-106). -/
structure Submission where
  id : String
  userId : String
  userName : String
  attachments : List Attachment

/-- Faults that abort a submission's evaluation (thrown inside the try
block of src/app.ts lines 371-518). -/
inductive SubFault where
  | badName (name : String)
  | httpStatus (code : Nat)
  | noBody
  | other (msg : String)

/-- The per-attachment checks of the download loop (src/app.ts lines
385-393), in source order: the display name must not contain a slash, the
fetch must return status 200 and the response must have a body. -/
def checkAttachment (a : Attachment) : Except SubFault Unit :=
  if a.displayName.data.contains '/' then Except.error (SubFault.badName a.displayName)
  else
    match a.download with
    | DownloadResult.ok => Except.ok ()
    | DownloadResult.badStatus code => Except.error (SubFault.httpStatus code)
    | DownloadResult.noBody => Except.error (SubFault.noBody)

/-- The attachment download loop (src/app.ts lines 385-402): attachments
are processed in order and the first failure throws. -/
def downloadAll : List Attachment → Except SubFault Unit
  | [] => Except.ok ()
  | a :: rest =>
    match checkAttachment a with
    | Except.error f => Except.error f
    | Except.ok _ => downloadAll rest

/-- The assessment record built for one submission (src/app.ts lines
365-368 and 512-517): the fixed user/type fields plus one criterion_<id>
entry per rubric criterion, in rubric order. -/
structure AssessmentOutputData where
  user_id : String
  assessment_type : String
  criteria : List (String × CriteriaOutputData)

/-- The record produced by the criterion loop for one submission
(src/app.ts lines 404-518). -/
def mkRecord (criteria : List Criterion) (childFor : Criterion → ChildRun)
    (s : Submission) : AssessmentOutputData :=
  { user_id := s.userId
  , assessment_type := "grading"
  , criteria := criteria.map (fun c =>
      ("criterion_" ++ c.id, (evalCriterion c (childFor c)).result)) }

/-- The body of the try block for one submission: download all attachments,
then (unless a modelled runtime fault is injected) run the criterion loop
and produce the record (src/app.ts lines 371-518). -/
def subBody (criteria : List Criterion) (childFor : Criterion → ChildRun)
    (inj : Option SubFault) (s : Submission) :
    Except SubFault AssessmentOutputData :=
  match downloadAll s.attachments with
  | Except.error f => Except.error f
  | Except.ok _ =>
    match inj with
    | some f => Except.error f
    | none => Except.ok (mkRecord criteria childFor s)

/-- Result of one submission's evaluation: the filesystem state (the list
of existing temporary directories) after the finally block, and either the
record or the fault that escaped the try block. -/
structure SubEvalResult where
  fs : List String
  outcome : Except SubFault AssessmentOutputData

/-- One submission's evaluation with its workspace scope (src/app.ts lines
370-522): Deno.makeTempDir creates the directory, the try body runs, and
the finally block removes the directory recursively on both the success
and the fault path before the result or the exception leaves the scope. -/
def evalSubmission (criteria : List Criterion) (childFor : Criterion → ChildRun)
    (inj : Option SubFault) (fs : List String) (workDir : String)
    (s : Submission) : SubEvalResult :=
  let fsAfterCreate := workDir :: fs
  let body := subBody criteria childFor inj s
  let fsAfterCleanup := fsAfterCreate.erase workDir
  { fs := fsAfterCleanup, outcome := body }

/-- The skip condition applied to a user id, shared by the evaluation loop
and the upload filter (src/app.ts lines 354 and 547):
users?.every(u => u.toString() !== uid) || exceptUsers?.some(u =>
u.toString() === uid).  users is the optional allow-list (undefined when
no --user argument was given, in which case the optional-chaining call
yields undefined, which is falsy); exceptUsers is the deny-list and always
an array. -/
def skipUser (users : Option (List Nat)) (exceptUsers : List Nat) (uid : String) : Bool :=
  (match users with
   | some us => us.all (fun u => toString u != uid)
   | none => false)
  || exceptUsers.any (fun u => toString u == uid)

/-- What happened to one submission in the evaluation loop. -/
inductive StepAction where
  | skipped
  | evaluated
  | faulted (f : SubFault)

/-- Trace entry for one submission of the evaluation loop. -/
structure SubStep where
  subId : String
  action : StepAction
  workdirRemoved : Bool

/-- Trace of one evaluation run: the per-submission steps in order, the
accumulated assessmentOutputDataList, and the fault that escaped the loop
if one did (the loop of src/app.ts lines 350-534 has no catch around the
per-submission try/finally, so a fault propagates out of evaluate). -/
structure RunTrace where
  steps : List SubStep
  records : List AssessmentOutputData
  crashed : Option SubFault

/-- The evaluation loop over submissions (src/app.ts lines 350-534).  A
skipped submission gets no workspace and no record; a faulting submission
has its workspace removed by the finally block but the exception then
propagates, ending the run: the remaining submissions are not reached and
the accumulated records are lost. -/
def evaluateRun (users : Option (List Nat)) (exceptUsers : List Nat)
    (criteria : List Criterion) (child : Submission → Criterion → ChildRun)
    (inj : Submission → Option SubFault) : List Submission → RunTrace
  | [] => { steps := [], records := [], crashed := none }
  | s :: rest =>
    if skipUser users exceptUsers s.userId then
      let t := evaluateRun users exceptUsers criteria child inj rest
      { steps := { subId := s.id, action := StepAction.skipped, workdirRemoved := false } :: t.steps
      , records := t.records
      , crashed := t.crashed }
    else
      let r := evalSubmission criteria (child s) (inj s) [] ("workdir") s
      match r.outcome with
      | Except.error f =>
        { steps := [{ subId := s.id, action := StepAction.faulted f
                    , workdirRemoved := !(r.fs.contains ("workdir")) }]
        , records := []
        , crashed := some f }
      | Except.ok rec =>
        let t := evaluateRun users exceptUsers criteria child inj rest
        { steps := { subId := s.id, action := StepAction.evaluated
                   , workdirRemoved := !(r.fs.contains ("workdir")) } :: t.steps
        , records := rec :: t.records
        , crashed := t.crashed }

/-- Whether a submission id appears in the trace at all (i.e. the loop
reached it, whether it was skipped, evaluated or faulted). -/
def attempted (t : RunTrace) (sid : String) : Bool :=
  t.steps.any (fun st => st.subId == sid)

/-- The in-memory dataset passed to upload (the IntermediateData of
src/app.ts lines 46-56). -/
structure IntermediateData where
  canvas : String
  course : Nat
  assignment : Nat
  rubricAssociationId : Nat
  assessmentOutputDataList : List AssessmentOutputData

/-- One entry of the results list built by the upload loop (src/app.ts
lines 568-586): the empty object produced in dry-run mode, or the parsed
network response, of which only the presence of an errors field matters. -/
inductive UploadResult where
  | emptyRes
  | res (errors : Bool)

/-- Whether a result carries an errors field (src/app.ts line 588). -/
def UploadResult.hasErrors : UploadResult → Bool
  | UploadResult.res true => true
  | _ => false

/-- Console and network events emitted by upload, one constructor per
source statement (src/app.ts lines 545-606).  Every constructor except
netPost is console output. -/
inductive UploadEv where
  | logFilteredOut (user : String)
  | logUploadingHeader
  | writeUnderscore
  | writeDot
  | logBlank
  | logVerboseRecord (user : String)
  | logWouldUpload (points : ℚ) (user : String)
  | netPost (user : String)
  | writeE
  | writeHash
  | writeBar
  | dirResults
  | dirError
  | logFinished (failed : Nat) (total : Nat)

/-- Whether an event is the network POST (src/app.ts line 577). -/
def isNetEv : UploadEv → Bool
  | UploadEv.netPost _ => true
  | _ => false

/-- The network events of a trace. -/
def netEvents (evs : List UploadEv) : List UploadEv := evs.filter isNetEv

/-- The console events of a trace (everything except network calls). -/
def consoleEvents (evs : List UploadEv) : List UploadEv :=
  evs.filter (fun e => !isNetEv e)

/-- The per-user total computed in dry-run mode (src/app.ts line 574):
Object.values(record).map(c => c.points || 0).reduce((a, b) => a + b).
The two string-valued fields user_id and assessment_type contribute 0
(string.points is undefined, defaulted to 0), so the total is the sum of
the criterion points. -/
def totalPoints (r : AssessmentOutputData) : ℚ :=
  (r.criteria.map (fun kv => kv.2.points)).foldl (fun a b => a + b) 0

/-- The filtered list that upload assigns back to
data.assessmentOutputDataList (src/app.ts lines 546-553). -/
def uploadKept (users : Option (List Nat)) (exceptUsers : List Nat)
    (d : IntermediateData) : List AssessmentOutputData :=
  d.assessmentOutputDataList.filter (fun r => !(skipUser users exceptUsers r.user_id))

/-- The events emitted by one iteration of the upload loop for one record
(src/app.ts lines 569-594): the optional verbose log, then either the
dry-run total line or the network POST, then the E/# progress mark (E on
an errors response; # only in a real upload). -/
def perRecordEvents (dryRun verbose : Bool) (resp : AssessmentOutputData → Bool)
    (r : AssessmentOutputData) : List UploadEv :=
  (if verbose then [UploadEv.logVerboseRecord r.user_id] else [])
    ++ (if dryRun then [UploadEv.logWouldUpload (totalPoints r) r.user_id]
        else [UploadEv.netPost r.user_id]
          ++ (if resp r then [UploadEv.writeE] else [UploadEv.writeHash]))

/-- The result pushed for one record (src/app.ts lines 573-586): the empty
object in dry-run mode, otherwise the network response (resp tells whether
it has an errors field). -/
def perRecordResult (dryRun : Bool) (resp : AssessmentOutputData → Bool)
    (r : AssessmentOutputData) : UploadResult :=
  if dryRun then UploadResult.emptyRes else UploadResult.res (resp r)

/-- Outcome of one call to upload: the value of the argument's
assessmentOutputDataList field after upload returns (the function mutates
its argument at src/app.ts line 546), the emitted event trace, the results
list and the failure count. -/
structure UploadOutcome where
  finalList : List AssessmentOutputData
  events : List UploadEv
  results : List UploadResult
  failedCount : Nat

/-- The upload pipeline (src/app.ts lines 545-608).  resp models the
network: whether the POST response for a record carries an errors field.
The event list follows the source statement by statement: the filter logs,
the verbose banner, one underscore per surviving record plus a dot and a
blank line, the per-record loop events, the closing bar (real mode only),
a blank line, the verbose results dump, one dir per failed record and the
final summary line. -/
def upload (dryRun verbose : Bool) (users : Option (List Nat))
    (exceptUsers : List Nat) (resp : AssessmentOutputData → Bool)
    (d : IntermediateData) : UploadOutcome :=
  let kept := uploadKept users exceptUsers d
  let results := kept.map (perRecordResult dryRun resp)
  let failed := (results.filter UploadResult.hasErrors).length
  { finalList := kept
  , results := results
  , failedCount := failed
  , events :=
      ((d.assessmentOutputDataList.filter (fun r => skipUser users exceptUsers r.user_id)).map
        (fun r => UploadEv.logFilteredOut r.user_id))
      ++ (if verbose then [UploadEv.logUploadingHeader] else [])
      ++ kept.map (fun _ => UploadEv.writeUnderscore)
      ++ [UploadEv.writeDot, UploadEv.logBlank]
      ++ (kept.map (perRecordEvents dryRun verbose resp)).flatten
      ++ (if !dryRun then [UploadEv.writeBar] else [])
      ++ [UploadEv.logBlank]
      ++ (if verbose then [UploadEv.dirResults] else [])
      ++ (results.filter UploadResult.hasErrors).map (fun _ => UploadEv.dirError)
      ++ [UploadEv.logFinished failed kept.length] }

/-- A child run that produces nothing and exits 0 (used for concrete
instances below). -/
def child0 : Submission → Criterion → ChildRun :=
  fun _ _ => { chunks := [], exitCode := 0, stdinWriteFails := false }

/-- A submission whose single attachment download answers HTTP 404. -/
def cexBad : Submission :=
  { id := "s1", userId := "1", userName := "Alice"
  , attachments := [{ displayName := "a.txt", download := DownloadResult.badStatus 404 }] }

/-- A second, fault-free submission following the failing one. -/
def cexGood : Submission :=
  { id := "s2", userId := "2", userName := "Bob", attachments := [] }

/-- A concrete assessment record for the upload examples. -/
def rEx : AssessmentOutputData :=
  { user_id := "42", assessment_type := "grading"
  , criteria := [("criterion_c1", { points := 3, comments := "ok" })] }

/-- A concrete dataset containing only rEx. -/
def dEx : IntermediateData :=
  { canvas := "https://canvas.example", course := 1, assignment := 2
  , rubricAssociationId := 7, assessmentOutputDataList := [rEx] }

theorem string_eq_of_data (s t : String) (h : s.data = t.data) : s = t :=
  congrArg String.mk h

theorem string_data_append (s t : String) : (s ++ t).data = s.data ++ t.data := by
  cases s
  cases t
  rfl

theorem str_append_empty (s : String) : s ++ ("") = s :=
  string_eq_of_data _ _ (by rw [string_data_append]; exact List.append_nil _)

theorem str_empty_append (s : String) : ("") ++ s = s :=
  string_eq_of_data _ _ (by rw [string_data_append]; rfl)

theorem str_append_assoc (a b c : String) : a ++ b ++ c = a ++ (b ++ c) :=
  string_eq_of_data _ _ (by simp [string_data_append, List.append_assoc])

theorem str_foldl_append (l : List String) :
    ∀ a : String, l.foldl (fun x y => x ++ y) a = a ++ String.join l := by
  induction l with
  | nil =>
    intro a
    rw [List.foldl_nil]
    exact (str_append_empty a).symm
  | cons s l ih =>
    intro a
    rw [List.foldl_cons, ih]
    have hj : String.join (s :: l) = s ++ String.join l := by
      show List.foldl (fun x y => x ++ y) (("") ++ s) l = s ++ String.join l
      rw [ih, str_empty_append]
    rw [hj, str_append_assoc]

theorem str_join_cons (s : String) (l : List String) :
    String.join (s :: l) = s ++ String.join l := by
  show List.foldl (fun x y => x ++ y) (("") ++ s) l = s ++ String.join l
  rw [str_foldl_append, str_empty_append]

theorem captured_foldl (evs : List StreamEv) :
    ∀ a : String, evs.foldl captureStep a = a ++ String.join (outChunks evs) := by
  induction evs with
  | nil =>
    intro a
    rw [List.foldl_nil]
    exact (str_append_empty a).symm
  | cons e rest ih =>
    intro a
    cases e with
    | out chunk =>
      rw [List.foldl_cons]
      show List.foldl captureStep (a ++ chunk) rest = _
      rw [ih]
      have ho : outChunks (StreamEv.out chunk :: rest) = chunk :: outChunks rest := by
        simp [outChunks]
      rw [ho, str_join_cons, str_append_assoc]
    | err chunk =>
      rw [List.foldl_cons]
      show List.foldl captureStep a rest = _
      rw [ih]
      have ho : outChunks (StreamEv.err chunk :: rest) = outChunks rest := by
        simp [outChunks]
      rw [ho]

theorem captured_is_join (evs : List StreamEv) :
    capturedOutput evs = String.join (outChunks evs) := by
  show evs.foldl captureStep ("") = _
  rw [captured_foldl, str_empty_append]

/-- C3: the captured comments text of a child process equals the
concatenation, in emission order, of the chunks the child wrote to stdout,
for every interleaving with stderr chunks (which never enter it), and two
interleavings with the same stdout chunk sequence capture identical text. -/
theorem stdout_capture_spec (evs evs2 : List StreamEv) :
    capturedOutput evs = String.join (outChunks evs) ∧
    (outChunks evs = outChunks evs2 → capturedOutput evs = capturedOutput evs2) := by
  refine ⟨captured_is_join evs, fun he => ?_⟩
  rw [captured_is_join evs, captured_is_join evs2, he]

/-- Concrete instance of stdout_capture_spec. -/
theorem stdout_capture_witness :
    capturedOutput [StreamEv.out ("a"), StreamEv.err ("b"), StreamEv.out ("c")]
      = String.join [("a"), ("c")] ∧
    capturedOutput [StreamEv.out ("a"), StreamEv.err ("b"), StreamEv.out ("c")]
      = capturedOutput [StreamEv.err ("z"), StreamEv.out ("a"), StreamEv.out ("c")] :=
  ⟨(stdout_capture_spec [StreamEv.out ("a"), StreamEv.err ("b"), StreamEv.out ("c")]
      [StreamEv.err ("z"), StreamEv.out ("a"), StreamEv.out ("c")]).1,
   (stdout_capture_spec [StreamEv.out ("a"), StreamEv.err ("b"), StreamEv.out ("c")]
      [StreamEv.err ("z"), StreamEv.out ("a"), StreamEv.out ("c")]).2 rfl⟩

/-- C1: the points of a criterion result are the criterion's maximum point
value exactly for exit status zero and 0 for any non-zero exit status, and
no other value is ever produced. -/
theorem points_from_exit_status (c : Criterion) (run : ChildRun) :
    ((evalCriterion c run).result.points = if run.exitCode = 0 then c.points else 0) ∧
    ((evalCriterion c run).result.points = c.points ∨ (evalCriterion c run).result.points = 0) := by
  constructor
  · by_cases h : run.exitCode = 0 <;> simp [evalCriterion, statusSuccess, h]
  · by_cases h : run.exitCode = 0 <;> simp [evalCriterion, statusSuccess, h]

/-- C8: a failed stdin write is caught locally and reported as a warning;
the criterion result is unchanged by it, and points are determined solely
by the exit status. -/
theorem stdin_failure_tolerated (c : Criterion) (run : ChildRun) :
    (evalCriterion c { run with stdinWriteFails := true }).result
      = (evalCriterion c { run with stdinWriteFails := false }).result ∧
    ((evalCriterion c run).result.points
      = if statusSuccess run = true then c.points else 0) ∧
    ((evalCriterion c run).warnings
      = if run.stdinWriteFails = true then ["Failed writing process input"] else []) := by
  refine ⟨rfl, rfl, ?_⟩
  cases h : run.stdinWriteFails <;> simp [evalCriterion, stdinHandled, stdinAttempt, h]

theorem skip_iff (users : Option (List Nat)) (exceptUsers : List Nat) (uid : String) :
    skipUser users exceptUsers uid = true ↔
      ((∃ us, users = some us ∧ ∀ u ∈ us, toString u ≠ uid)
        ∨ (∃ u ∈ exceptUsers, toString u = uid)) := by
  cases users with
  | none => simp [skipUser, List.any_eq_true]
  | some us => simp [skipUser, List.all_eq_true, List.any_eq_true]

theorem subBody_user (criteria : List Criterion) (childFor : Criterion → ChildRun)
    (inj : Option SubFault) (s : Submission) (recd : AssessmentOutputData)
    (h : subBody criteria childFor inj s = Except.ok recd) : recd.user_id = s.userId := by
  rw [subBody.eq_def] at h
  cases hd : downloadAll s.attachments with
  | error f =>
    rw [hd] at h
    simp at h
  | ok u =>
    rw [hd] at h
    cases hinj : inj with
    | some f =>
      rw [hinj] at h
      simp at h
    | none =>
      rw [hinj] at h
      simp at h
      rw [← h]
      rfl

theorem records_not_skipped (users : Option (List Nat)) (exceptUsers : List Nat)
    (criteria : List Criterion) (child : Submission → Criterion → ChildRun)
    (inj : Submission → Option SubFault) :
    ∀ (subs : List Submission) (r : AssessmentOutputData),
      r ∈ (evaluateRun users exceptUsers criteria child inj subs).records →
      skipUser users exceptUsers r.user_id = false := by
  intro subs
  induction subs with
  | nil =>
    intro r hr
    simp [evaluateRun] at hr
  | cons s rest ih =>
    intro r hr
    cases hskip : skipUser users exceptUsers s.userId with
    | true =>
      simp only [evaluateRun, hskip] at hr
      exact ih r hr
    | false =>
      simp only [evaluateRun, hskip, evalSubmission] at hr
      cases hb : subBody criteria (child s) (inj s) s with
      | error f =>
        rw [hb] at hr
        simp at hr
      | ok recd =>
        rw [hb] at hr
        simp at hr
        rcases hr with hr | hr
        · rw [hr, subBody_user criteria (child s) (inj s) s recd hb]
          exact hskip
        · exact ih r hr

theorem kept_iff (users : Option (List Nat)) (exceptUsers : List Nat)
    (d : IntermediateData) (r : AssessmentOutputData) :
    r ∈ uploadKept users exceptUsers d ↔
      (r ∈ d.assessmentOutputDataList ∧ skipUser users exceptUsers r.user_id = false) := by
  simp [uploadKept, List.mem_filter]

/-- C5: a unit (submission in evaluation, record in upload) is skipped
exactly when an allow-list is provided and the user is absent from it, or
the user is in the deny-list; with no allow-list only deny-list membership
skips; and no record of a skipped user is ever produced. -/
theorem user_filter_spec :
    (∀ (users : Option (List Nat)) (exceptUsers : List Nat) (uid : String),
        skipUser users exceptUsers uid = true ↔
          ((∃ us, users = some us ∧ ∀ u ∈ us, toString u ≠ uid)
            ∨ (∃ u ∈ exceptUsers, toString u = uid))) ∧
    (∀ (exceptUsers : List Nat) (uid : String),
        skipUser none exceptUsers uid = true ↔ (∃ u ∈ exceptUsers, toString u = uid)) ∧
    (∀ (users : Option (List Nat)) (exceptUsers : List Nat) (criteria : List Criterion)
        (child : Submission → Criterion → ChildRun) (inj : Submission → Option SubFault)
        (subs : List Submission) (r : AssessmentOutputData),
        r ∈ (evaluateRun users exceptUsers criteria child inj subs).records →
        skipUser users exceptUsers r.user_id = false) ∧
    (∀ (users : Option (List Nat)) (exceptUsers : List Nat) (d : IntermediateData)
        (r : AssessmentOutputData),
        r ∈ uploadKept users exceptUsers d ↔
          (r ∈ d.assessmentOutputDataList ∧ skipUser users exceptUsers r.user_id = false)) := by
  refine ⟨skip_iff, ?_, ?_, kept_iff⟩
  · intro exceptUsers uid
    rw [skip_iff]
    simp
  · intro users exceptUsers criteria child inj subs r hr
    exact records_not_skipped users exceptUsers criteria child inj subs r hr

/-- Concrete instance of user_filter_spec. -/
theorem user_filter_witness :
    skipUser (some [2]) [] ("1") = true ∧ skipUser none [3] ("3") = true :=
  ⟨(user_filter_spec.1 (some [2]) [] ("1")).mpr (Or.inl ⟨[2], rfl, by decide⟩),
   (user_filter_spec.2.1 [3] ("3")).mpr ⟨3, by decide, by decide⟩⟩

/-- C4: the temporary working directory of a submission does not exist
after that submission's evaluation completes, on the success path and on
every fault path (any download fault of the submission's attachments and
any injected fault in the try block), because the finally block removes it
before the result or the exception leaves the scope. -/
theorem workdir_cleanup_spec (criteria : List Criterion) (childFor : Criterion → ChildRun)
    (inj : Option SubFault) (fs : List String) (workDir : String) (s : Submission)
    (h : workDir ∉ fs) :
    workDir ∉ (evalSubmission criteria childFor inj fs workDir s).fs := by
  have he : (evalSubmission criteria childFor inj fs workDir s).fs = fs := by
    show (workDir :: fs).erase workDir = fs
    exact List.erase_cons_head workDir fs
  rw [he]
  exact h

/-- Concrete instance of workdir_cleanup_spec. -/
theorem workdir_cleanup_witness :
    ("w" : String) ∉ (evalSubmission []
        (fun _ => { chunks := [], exitCode := 0, stdinWriteFails := false })
        none [] ("w")
        { id := "s", userId := "1", userName := "n", attachments := [] }).fs :=
  workdir_cleanup_spec _ _ _ _ _ _ (by simp)

/-- C2 counterexample: with two submissions where the first one's
attachment download answers HTTP 404, the failing submission produces no
record and its working directory is removed, but the run does NOT continue:
the second submission is never attempted (the loop of src/app.ts lines
350-534 has no catch, so the exception propagates out of evaluate),
contradicting the claim that every remaining submission is still
attempted. -/
theorem download_failure_cex :
    (evaluateRun none [] [] child0 (fun _ => none) [cexBad, cexGood]).crashed
        = some (SubFault.httpStatus 404) ∧
    (evaluateRun none [] [] child0 (fun _ => none) [cexBad, cexGood]).records = [] ∧
    ¬ attempted (evaluateRun none [] [] child0 (fun _ => none) [cexBad, cexGood]) ("s2") = true := by
  refine ⟨rfl, rfl, ?_⟩
  decide

/-- C2 amended: a failed attachment download aborts that submission's
evaluation with no partial record appended and with its working directory
still removed by the scoped cleanup, but the fault then escapes the
submission loop: the run crashes and the remaining submissions are not
attempted. -/
theorem download_failure_aborts (users : Option (List Nat)) (exceptUsers : List Nat)
    (criteria : List Criterion) (child : Submission → Criterion → ChildRun)
    (inj : Submission → Option SubFault) (s : Submission) (rest : List Submission)
    (f : SubFault)
    (hskip : skipUser users exceptUsers s.userId = false)
    (hdl : downloadAll s.attachments = Except.error f) :
    (evaluateRun users exceptUsers criteria child inj (s :: rest)).crashed = some f ∧
    (evaluateRun users exceptUsers criteria child inj (s :: rest)).records = [] ∧
    (evaluateRun users exceptUsers criteria child inj (s :: rest)).steps
      = [{ subId := s.id, action := StepAction.faulted f, workdirRemoved := true }] := by
  have hb : subBody criteria (child s) (inj s) s = Except.error f := by
    unfold subBody
    rw [hdl]
  refine ⟨?_, ?_, ?_⟩ <;>
    simp [evaluateRun, hskip, evalSubmission, hb, List.erase_cons_head]

/-- Concrete instance of download_failure_aborts. -/
theorem download_failure_aborts_witness :
    (evaluateRun none [] [] child0 (fun _ => none) [cexBad]).crashed
      = some (SubFault.httpStatus 404) :=
  (download_failure_aborts none [] [] child0 (fun _ => none) cexBad []
    (SubFault.httpStatus 404) rfl rfl).1

/-- C10: upload reassigns its argument's assessmentOutputDataList field to
the allow/deny-filtered list, so after upload returns every record whose
user is excluded by the filter is gone from the dataset object that was
passed in. -/
theorem upload_mutates_dataset (dryRun verbose : Bool) (users : Option (List Nat))
    (exceptUsers : List Nat) (resp : AssessmentOutputData → Bool) (d : IntermediateData) :
    ((upload dryRun verbose users exceptUsers resp d).finalList
        = d.assessmentOutputDataList.filter (fun r => !(skipUser users exceptUsers r.user_id))) ∧
    (∀ r, r ∈ (upload dryRun verbose users exceptUsers resp d).finalList ↔
        (r ∈ d.assessmentOutputDataList ∧ skipUser users exceptUsers r.user_id = false)) := by
  refine ⟨rfl, ?_⟩
  intro r
  exact kept_iff users exceptUsers d r

/-- Concrete instance of upload_mutates_dataset: the record of user 42 is
removed from the dataset when 42 is on the deny-list. -/
theorem upload_mutates_witness :
    rEx ∉ (upload true false none [42] (fun _ => false) dEx).finalList := by
  intro hmem
  have h2 := ((upload_mutates_dataset true false none [42] (fun _ => false) dEx).2 rEx).mp hmem
  exact absurd h2.2 (by decide)

theorem perRecordEvents_dry_no_net (verbose : Bool) (resp : AssessmentOutputData → Bool)
    (r : AssessmentOutputData) (e : UploadEv)
    (he : e ∈ perRecordEvents true verbose resp r) : isNetEv e = false := by
  cases verbose
  · simp [perRecordEvents] at he
    subst he
    rfl
  · simp [perRecordEvents] at he
    rcases he with he | he <;> subst he <;> rfl

/-- C9 counterexample: for a dataset with one record and a successful
network response, dry-run console output differs from real-upload console
output (the dry run prints a per-record total line and suppresses the #
progress mark and the closing bar), contradicting the claim that the
console output shape is identical. -/
theorem dry_run_console_cex :
    consoleEvents (upload true false none [] (fun _ => false) dEx).events
      ≠ consoleEvents (upload false false none [] (fun _ => false) dEx).events := by
  intro h
  have h6 : (consoleEvents (upload true false none [] (fun _ => false) dEx).events).length = 6 := rfl
  have h7 : (consoleEvents (upload false false none [] (fun _ => false) dEx).events).length = 7 := rfl
  rw [h] at h6
  rw [h7] at h6
  exact absurd h6 (by decide)

/-- C9 amended: for every record surviving the filter, dry-run upload
prints the computed total points for that record's user and makes no
network call, it iterates exactly the records a real upload would iterate
(same filtered list, one result per record), but its console output is not
identical to a real upload's (see dry_run_console_cex). -/
theorem dry_run_upload_spec (verbose : Bool) (users : Option (List Nat))
    (exceptUsers : List Nat) (resp : AssessmentOutputData → Bool) (d : IntermediateData) :
    (∀ r ∈ (upload true verbose users exceptUsers resp d).finalList,
        UploadEv.logWouldUpload (totalPoints r) r.user_id
          ∈ (upload true verbose users exceptUsers resp d).events) ∧
    netEvents (upload true verbose users exceptUsers resp d).events = [] ∧
    (upload true verbose users exceptUsers resp d).results.length
      = (upload true verbose users exceptUsers resp d).finalList.length ∧
    (upload true verbose users exceptUsers resp d).finalList
      = (upload false verbose users exceptUsers resp d).finalList := by
  refine ⟨?_, ?_, ?_, rfl⟩
  · intro r hr
    have h1 : UploadEv.logWouldUpload (totalPoints r) r.user_id
        ∈ perRecordEvents true verbose resp r := by
      cases verbose <;> simp [perRecordEvents]
    have h2 : perRecordEvents true verbose resp r
        ∈ (uploadKept users exceptUsers d).map (perRecordEvents true verbose resp) :=
      List.mem_map_of_mem _ hr
    have h3 := List.mem_flatten.mpr ⟨_, h2, h1⟩
    simp only [upload, List.mem_append]
    tauto
  · have hm1 : ∀ l : List AssessmentOutputData,
        ((l.map (fun r => UploadEv.logFilteredOut r.user_id)).filter isNetEv) = [] := by
      intro l
      induction l with
      | nil => rfl
      | cons x xs ih => simp [List.filter_cons, isNetEv, ih]
    have hm2 : ∀ l : List AssessmentOutputData,
        ((l.map (fun _ => UploadEv.writeUnderscore)).filter isNetEv) = [] := by
      intro l
      induction l with
      | nil => rfl
      | cons x xs ih => simp [List.filter_cons, isNetEv, ih]
    have hm3 : ∀ l : List UploadResult,
        ((l.map (fun _ => UploadEv.dirError)).filter isNetEv) = [] := by
      intro l
      induction l with
      | nil => rfl
      | cons x xs ih => simp [List.filter_cons, isNetEv, ih]
    have hflat : ∀ l : List AssessmentOutputData,
        (((l.map (perRecordEvents true verbose resp)).flatten).filter isNetEv) = [] := by
      intro l
      induction l with
      | nil => rfl
      | cons x xs ih =>
        rw [List.map_cons, List.flatten_cons, List.filter_append, ih]
        have hx : (perRecordEvents true verbose resp x).filter isNetEv = [] := by
          apply List.filter_eq_nil_iff.mpr
          intro a ha
          simp [perRecordEvents_dry_no_net verbose resp x a ha]
        simp [hx]
    cases verbose <;>
      simp [netEvents, upload, List.filter_append, hm1, hm2, hm3, hflat,
        List.filter_cons, isNetEv]
  · simp [upload]

/-- Concrete instance of dry_run_upload_spec. -/
theorem dry_run_upload_witness :
    UploadEv.logWouldUpload (totalPoints rEx) ("42")
      ∈ (upload true false none [] (fun _ => false) dEx).events :=
  (dry_run_upload_spec false none [] (fun _ => false) dEx).1 rEx
    (List.mem_cons_self rEx [])

theorem brSplit_ne_nil (s : List Char) : brSplit s ≠ [] := by
  cases s with
  | nil => simp [brSplit]
  | cons ch cs =>
    simp only [brSplit]
    split
    · simp
    · split <;> simp

theorem joinWith_cons_head (sep : List Char) (ch : Char) (l : List Char)
    (ls : List (List Char)) :
    joinWith sep ((ch :: l) :: ls) = ch :: joinWith sep (l :: ls) := by
  cases ls with
  | nil => rfl
  | cons l2 ls2 => simp [joinWith]

theorem joinWith_nil_cons (sep : List Char) (l : List Char) (ls : List (List Char)) :
    joinWith sep ([] :: l :: ls) = sep ++ joinWith sep (l :: ls) := by
  simp [joinWith]

theorem replaceBr_join_aux : ∀ (n : Nat) (s : List Char), s.length ≤ n →
    replaceBrL s = joinWith ['\n'] (brSplit s) := by
  intro n
  induction n with
  | zero =>
    intro s hs
    have h0 : s = [] := List.length_eq_zero.mp (Nat.le_zero.mp hs)
    subst h0
    simp [replaceBrL, brSplit, joinWith]
  | succ n ih =>
    intro s hs
    cases s with
    | nil => simp [replaceBrL, brSplit, joinWith]
    | cons ch cs =>
      have hs2 : cs.length ≤ n := by
        simp only [List.length_cons] at hs
        omega
      by_cases hm : (ch :: cs).take 7 = brPat
      · simp only [replaceBrL, brSplit, if_pos hm]
        rw [ih (cs.drop 6) (by simp only [List.length_drop]; omega)]
        cases hspb : brSplit (cs.drop 6) with
        | nil => exact absurd hspb (brSplit_ne_nil _)
        | cons l ls =>
          rw [joinWith_nil_cons]
          rfl
      · simp only [replaceBrL, brSplit, if_neg hm]
        rw [ih cs hs2]
        cases hspb : brSplit cs with
        | nil => exact absurd hspb (brSplit_ne_nil cs)
        | cons l ls =>
          show ch :: joinWith ['\n'] (l :: ls) = joinWith ['\n'] ((ch :: l) :: ls)
          rw [joinWith_cons_head]

theorem replaceBr_join (s : List Char) : replaceBrL s = joinWith ['\n'] (brSplit s) :=
  replaceBr_join_aux s.length s (Nat.le_refl _)

theorem replaceBr_id (s : List Char) (h : hasBr s = false) : replaceBrL s = s := by
  induction s with
  | nil => simp [replaceBrL]
  | cons ch cs ih =>
    simp only [hasBr] at h
    by_cases hm : (ch :: cs).take 7 = brPat
    · rw [if_pos hm] at h
      exact absurd h (by simp)
    · rw [if_neg hm] at h
      simp only [replaceBrL, if_neg hm]
      rw [ih h]

/-- C6: the text delivered to the child's stdin is the instructional text
with every (leftmost, non-overlapping) occurrence of the br-tag-plus-CRLF
pattern replaced by a single newline and nothing else changed (it equals
the pattern-split pieces joined by a newline, and is the identity on texts
without the pattern), and the stream is closed after the full write. -/
theorem stdin_text_spec (c : Criterion) :
    stdinEvents c = [StdinEv.wrote (stdinText c.longDescription), StdinEv.closed] ∧
    (stdinText c.longDescription).data
      = joinWith ['\n'] (brSplit c.longDescription.data) ∧
    (∀ s : String, hasBr s.data = false → stdinText s = s) := by
  refine ⟨rfl, ?_, ?_⟩
  · show replaceBrL c.longDescription.data = _
    exact replaceBr_join _
  · intro s hsb
    exact string_eq_of_data _ _ (replaceBr_id s.data hsb)

/-- A concrete criterion for the stdin witness. -/
def cEx6 : Criterion :=
  { id := "c1", description := "d", longDescription := "Do<br/>\r\nthis", points := 3 }

/-- Concrete instance of stdin_text_spec. -/
theorem stdin_text_witness :
    stdinText ("abc") = ("abc") ∧
    (stdinText cEx6.longDescription).data
      = joinWith ['\n'] (brSplit cEx6.longDescription.data) :=
  ⟨(stdin_text_spec cEx6).2.2 ("abc") (by decide), (stdin_text_spec cEx6).2.1⟩

theorem isLineTerm_space : isLineTerm ' ' = false := by decide

theorem splitLines_ne_nil (ch : Char) (cs : List Char) : splitLines (ch :: cs) ≠ [] := by
  simp only [splitLines]
  split
  · simp
  · split <;> simp

theorem splitLines_nil_of (cs : List Char) (h : splitLines cs = []) : cs = [] := by
  cases cs with
  | nil => rfl
  | cons a b => exact absurd h (splitLines_ne_nil a b)

theorem fixLine_space (l : List Char) : fixLine (' ' :: l) = thinSpace :: fixLine l := by
  simp [fixLine, List.takeWhile_cons, List.dropWhile_cons]

theorem fixLine_nospace (ch : Char) (l : List Char) (h : (ch == ' ') = false) :
    fixLine (ch :: l) = ch :: l := by
  simp [fixLine, List.takeWhile_cons, List.dropWhile_cons, h]

theorem norm_trio (s : List Char) :
    normGo true s = specNormalize s ∧ normGo false s = specNormMid s ∧
    specNormMid s = specTail s := by
  induction s with
  | nil => exact ⟨rfl, rfl, rfl⟩
  | cons ch cs ih =>
    obtain ⟨ih1, ih2, ih3⟩ := ih
    have goal2 : normGo false (ch :: cs) = specNormMid (ch :: cs) := by
      simp only [normGo, specNormMid, Bool.false_and]
      cases hterm : isLineTerm ch <;> simp [hterm, ih1, ih2]
    have goal3 : specNormMid (ch :: cs) = specTail (ch :: cs) := by
      cases hterm : isLineTerm ch
      · cases hspl : splitLines cs with
        | nil =>
          have hcs := splitLines_nil_of cs hspl
          subst hcs
          simp [specNormMid, specTail, splitLines, hterm]
        | cons l ls =>
          have h1 : specNormMid (ch :: cs) = ch :: specTail cs := by
            simp [specNormMid, hterm, ih3]
          have h2 : splitLines (ch :: cs) = (ch :: l) :: ls := by
            simp [splitLines, hterm, hspl]
          have h4 : specTail cs = l ++ (ls.map fixLine).flatten := by
            simp [specTail, hspl]
          rw [h1, h4]
          simp [specTail, h2]
      · simp [specNormMid, specTail, splitLines, hterm, specNormalize]
    refine ⟨?_, goal2, goal3⟩
    by_cases hsp : ch = ' '
    · subst hsp
      have hL : normGo true (' ' :: cs) = thinSpace :: normGo true cs := by
        simp [normGo]
      cases hspl : splitLines cs with
      | nil =>
        have hcs := splitLines_nil_of cs hspl
        subst hcs
        decide
      | cons l ls =>
        have h2 : splitLines (' ' :: cs) = (' ' :: l) :: ls := by
          simp [splitLines, isLineTerm_space, hspl]
        have h3 : specNormalize (' ' :: cs) = thinSpace :: specNormalize cs := by
          simp [specNormalize, h2, fixLine_space, hspl]
        rw [hL, h3, ih1]
    · have hbe : (ch == ' ') = false := beq_eq_false_iff_ne.mpr hsp
      have hL : normGo true (ch :: cs) = ch :: normGo (isLineTerm ch) cs := by
        simp [normGo, hbe]
      cases hterm : isLineTerm ch
      · cases hspl : splitLines cs with
        | nil =>
          have hcs := splitLines_nil_of cs hspl
          subst hcs
          simp [hL, hterm, normGo, specNormalize, splitLines, hsp,
            fixLine_nospace ch [] hbe]
        | cons l ls =>
          have h2 : splitLines (ch :: cs) = (ch :: l) :: ls := by
            simp [splitLines, hterm, hspl]
          have h3 : specNormalize (ch :: cs) = ch :: (l ++ (ls.map fixLine).flatten) := by
            simp [specNormalize, h2, fixLine_nospace ch l hbe]
          have h4 : specTail cs = l ++ (ls.map fixLine).flatten := by
            simp [specTail, hspl]
          rw [hL, hterm, ih2, ih3, h4, h3]
      · have h2 : splitLines (ch :: cs) = [ch] :: splitLines cs := by
          simp [splitLines, hterm]
        simp [hL, hterm, ih1, specNormalize, h2, fixLine_nospace ch [] hbe]

/-- C7: the comments stored in a criterion result are the captured stdout
text with each line's maximal leading run of spaces replaced by an
equal-length run of the substitute character and everything else,
interior spaces included, unchanged. -/
theorem comments_indent_spec (c : Criterion) (run : ChildRun) :
    (evalCriterion c run).result.comments
      = String.mk (specNormalize (capturedOutput run.chunks).data) ∧
    (∀ s : String, normalizeComments s = String.mk (specNormalize s.data)) := by
  refine ⟨?_, ?_⟩
  · show String.mk (normGo true (capturedOutput run.chunks).data) = _
    rw [(norm_trio _).1]
  · intro s
    show String.mk (normGo true s.data) = _
    rw [(norm_trio _).1]

end CanvasEval
